import Mathlib

/-!
Verification development for the xBD chip-extraction pipeline
(`make_chips.py`, `build_catalog.py`).

The Python sources are shallowly embedded below.  JSON values are modelled
by the inductive `JValue` (numbers as rationals), Python exceptions by
`Except Unit`, and the two external geospatial libraries are modelled at
their documented interfaces:

* `shapely.wkt.loads` is an input parameter `wl : String → Option Geom`
  (`none` models a parse exception, which the source catches);
* `rasterio.DatasetReader.index (x, y)` is the `index` field of
  `RasterMeta`; per the rasterio documentation it returns the pair
  `(row, col)` of the pixel containing the point `(x, y)`;
* `skimage.registration.phase_cross_correlation` output (in `(row, col)`
  order, as documented) is the `pcc` field of a `Pair`, with
  `Except.error ()` modelling any exception raised while reading the
  rasters or registering them.

All numeric shift values are modelled over `ℚ`.
-/

/-- JSON values as produced by `json.load` (numbers as rationals). -/
inductive JValue where
  | null : JValue
  | bool : Bool → JValue
  | num : ℚ → JValue
  | str : String → JValue
  | arr : List JValue → JValue
  | obj : List (String × JValue) → JValue

/-- Python `str(...)` on a JSON value, as used on the `subtype` property.
For composite values Python produces a repr; only its first character
matters downstream (it is never a damage-taxonomy key), so the repr of
arrays and objects is abbreviated here. -/
def pyStr : JValue → String
  | .null => "None"
  | .bool true => "True"
  | .bool false => "False"
  | .num q => toString q
  | .str s => s
  | .arr _ => "[...]"
  | .obj _ => "\x7b...\x7d"

/-- Python truthiness of a JSON value (`if not img: ...`). -/
def pyTruthy : JValue → Bool
  | .null => false
  | .bool b => b
  | .num q => q != 0
  | .str s => s != ""
  | .arr l => !l.isEmpty
  | .obj l => !l.isEmpty

/-- Python `str.lower()` (ASCII case folding, character-wise). -/
def pyLower (s : String) : String := String.mk (s.data.map Char.toLower)

/-- Python `feats += v` where `feats` is a list: `list.__iadd__` extends by
any iterable.  A JSON array extends element-wise, a string extends with its
one-character strings, a dict extends with its keys; numbers, booleans and
`None` are not iterable and raise `TypeError` (modelled by `.error ()`). -/
def pyExtend (acc : List JValue) : JValue → Except Unit (List JValue)
  | .arr l => .ok (acc ++ l)
  | .str s => .ok (acc ++ s.data.map fun c => JValue.str (String.mk [c]))
  | .obj kvs => .ok (acc ++ kvs.map fun kv => JValue.str kv.1)
  | _ => .error ()

/-- `DAMAP` from `make_chips.py` (the damage taxonomy dictionary). -/
def DAMAP : List (String × Nat) :=
  [("no-damage", 0), ("none", 0), ("undamaged", 0),
   ("minor-damage", 1), ("minor_damage", 1), ("minor", 1),
   ("major-damage", 2), ("major_damage", 2), ("major", 2),
   ("destroyed", 3), ("total-destruction", 3)]

/-- Python `DAMAP.get(s, 0)`. -/
def damapGet (s : String) : Nat := (DAMAP.lookup s).getD 0

/-- Result of `shapely.wkt.loads`: a geometry with its centroid (in the
raster's georeferenced coordinates) and its `is_valid` flag. -/
structure Geom where
  centroid : ℚ × ℚ
  valid : Bool
  deriving DecidableEq

/-- One entry of the list returned by `load_wkt_features`:
`{"geom": geom, "label_int": dmg_int, "label_text": dmg_text}`. -/
structure Feature where
  geom : Geom
  label_int : Nat
  label_text : String
  deriving DecidableEq

/-- Body of the `for ft in feats` loop of `load_wkt_features`, for one
feature.  `.ok none` models `continue`; `.error ()` models the uncaught
`AttributeError` raised by `props.get(...)` when `properties` is not a
dict.  The `try` around `wkt.loads` catches parse errors and the
`TypeError` raised when `wkt` is missing or not a string. -/
def featOf (wl : String → Option Geom) : JValue → Except Unit (Option Feature)
  | .obj kvs =>
    match (kvs.lookup "properties").getD (.obj []) with
    | .obj pvs =>
      if (match pvs.lookup "feature_type" with
          | some (.str s) => s == "building"
          | _ => false : Bool) then
        let dmg_text := pyLower (pyStr ((pvs.lookup "subtype").getD (.str "unknown")))
        let dmg_int := damapGet dmg_text
        match kvs.lookup "wkt" with
        | some (.str w) =>
          match wl w with
          | some geom =>
            if geom.valid then .ok (some ⟨geom, dmg_int, dmg_text⟩) else .ok none
          | none => .ok none
        | _ => .ok none
      else .ok none
    | _ => .error ()
  | _ => .ok none

/-- The `for ft in feats` loop of `load_wkt_features` over the whole list. -/
def featLoop (wl : String → Option Geom) : List JValue → Except Unit (List Feature)
  | [] => .ok []
  | ft :: rest =>
    match featOf wl ft with
    | .error e => .error e
    | .ok o =>
      match featLoop wl rest with
      | .error e => .error e
      | .ok out => .ok (match o with | some f => f :: out | none => out)

/-- `load_wkt_features` from `make_chips.py`.  The argument is the result
of `json.load` (`none` when it raised, which the source catches and turns
into `[]`).  The schema branches: a dict with a `"features"` dict
concatenates its `lng_lat` and `xy` members via `pyExtend`; a dict with a
`"features"` list uses it directly; a bare list is used directly; any
other shape gives no features. -/
def load_wkt_features (wl : String → Option Geom) : Option JValue → Except Unit (List Feature)
  | none => .ok []
  | some gj =>
    let featsE : Except Unit (List JValue) :=
      match gj with
      | .obj kvs =>
        match kvs.lookup "features" with
        | some (.obj fkvs) =>
          match pyExtend [] ((fkvs.lookup "lng_lat").getD (.arr [])) with
          | .error e => .error e
          | .ok a => pyExtend a ((fkvs.lookup "xy").getD (.arr []))
        | some (.arr l) => .ok l
        | some _ => .ok []
        | none => .ok []
      | .arr l => .ok l
      | _ => .ok []
    match featsE with
    | .error e => .error e
    | .ok feats => featLoop wl feats

/-- `CROP_SIZE` from the CONFIG section of `make_chips.py`. -/
def CROP_SIZE : Nat := 128

/-- `DOWNSAMPLE_FOR_SHIFT` from the CONFIG section of `make_chips.py`. -/
def DOWNSAMPLE_FOR_SHIFT : ℚ := 4

/-- `MAX_SHIFT_PX` from the CONFIG section of `make_chips.py`. -/
def MAX_SHIFT_PX : ℚ := 20

/-- `numpy.clip(x, lo, hi)` on rationals: values below `lo` become `lo`,
values above `hi` become `hi`. -/
def npClip (x lo hi : ℚ) : ℚ := if x < lo then lo else if hi < x then hi else x

/-- `estimate_shift` from `make_chips.py`, with the call chain
`read_preview_gray` / `phase_cross_correlation` abstracted into its
input: `shift` is the displacement returned by the registration, in the
`(row, col)` order of `phase_cross_correlation` (the source unpacks it as
`dy, dx = shift`).  The result is rescaled by `DOWNSAMPLE_FOR_SHIFT` and
clipped to `[-MAX_SHIFT_PX, MAX_SHIFT_PX]`, returned as `(dx, dy)`. -/
def estimate_shift (shift : ℚ × ℚ) : ℚ × ℚ :=
  let dy := shift.1
  let dx := shift.2
  (npClip (dx * DOWNSAMPLE_FOR_SHIFT) (-MAX_SHIFT_PX) MAX_SHIFT_PX,
   npClip (dy * DOWNSAMPLE_FOR_SHIFT) (-MAX_SHIFT_PX) MAX_SHIFT_PX)

/-- `rasterio.windows.Window(col_off, row_off, width, height)`. -/
structure Window where
  col_off : Int
  row_off : Int
  width : Nat
  height : Nat
  deriving DecidableEq

/-- `safe_window_centered(col, row, size, w, h)` from `make_chips.py`:
`half = size // 2`, `c0 = int(round(col - half))` (the inputs are already
integers, so `round` is the identity), then
`c0 = max(0, min(c0, w - size))`, same for `r0`. -/
def safe_window_centered (col row : Int) (size w h : Nat) : Window :=
  let half : Int := (size / 2 : Nat)
  let c0 := col - half
  let r0 := row - half
  ⟨max 0 (min c0 ((w : Int) - size)), max 0 (min r0 ((h : Int) - size)), size, size⟩

/-- Shape of the chip array along lines 154-156 of `make_chips.py`:
`ds.read(window=win, out_dtype=np.uint8, boundless=True)` yields a 3-D
array of shape `(bands, win.height, win.width)`; `np.moveaxis(chip, 0, 2)`
yields `(win.height, win.width, bands)`.  The subsequent
`if chip.ndim == 2: chip = np.stack([chip]*3, axis=2)` is kept verbatim:
its test compares the number of dimensions with 2. -/
def chipDims (bands : Nat) (win : Window) : List Nat :=
  let shape := [win.height, win.width, bands]
  if shape.length == 2 then [win.height, win.width, 3] else shape

/-- The post-disaster raster as opened by `rasterio.open`: dimensions,
band count, and the georeferencing method `index (x, y)`, which per the
rasterio documentation returns the `(row, col)` index of the pixel
containing the georeferenced point `(x, y)`. -/
structure RasterMeta where
  width : Nat
  height : Nat
  bands : Nat
  index : ℚ × ℚ → Int × Int

/-- Per-feature chip extraction, lines 152-156 of `make_chips.py`:
`cx, cy = ds.index(*b["geom"].centroid.xy)` followed by
`win = safe_window_centered(cx, cy, CROP_SIZE, w, h)`.  Note that
`ds.index` returns `(row, col)`, so `cx` is the row index and is passed
into the `col` parameter of `safe_window_centered` (and `cy` into `row`).
Returns the window together with the shape of the emitted chip. -/
def extractChip (ras : RasterMeta) (g : Geom) : Window × List Nat :=
  let cx := (ras.index g.centroid).1
  let cy := (ras.index g.centroid).2
  let win := safe_window_centered cx cy CROP_SIZE ras.width ras.height
  (win, chipDims ras.bands win)

/-- Modelled from the spec: the chip window of section 4.4, which takes
the projected centroid as `(col, row)` and sets the top-left corner to
`clamped_col0 = clamp(round(col - S/2), 0, W - S)` and
`clamped_row0 = clamp(round(row - S/2), 0, H - S)`.  It feeds the column
index of `ras.index`'s `(row, col)` result into the `col` parameter. -/
def spec_chip_window (ras : RasterMeta) (g : Geom) : Window :=
  let rc := ras.index g.centroid
  safe_window_centered rc.2 rc.1 CROP_SIZE ras.width ras.height

/-- Python `f"{i:05d}"`. -/
def pad5 (i : Nat) : String :=
  let s := toString i
  String.mk (List.replicate (5 - s.length) '0') ++ s

/-- Output image name `f"{stem}_b{i:05d}.png"` (the split directory prefix
is common to all chips of a split and omitted). -/
def outPath (stem : String) (i : Nat) : String := stem ++ "_b" ++ pad5 i ++ ".png"

/-- One emitted chip: the written image (its window and shape) together
with the sidecar fields of lines 159-167 of `make_chips.py`.  One
manifest row carries the same data. -/
structure ChipOut where
  image_path : String
  label_int : Nat
  label_text : String
  stem : String
  idx : Nat
  shift_dx : ℚ
  shift_dy : ℚ
  win : Window
  dims : List Nat
  deriving DecidableEq

/-- One resolved tile pair as processed by the main loop of
`process_split`: its stem, the outcome of the registration
(`Except.error ()` models any exception inside `estimate_shift`, caught by
the bare `except` of line 141), the label file (`none` when
`label_path.exists()` is false, `some c` when present with `c` the
`json.load` outcome), and the outcome of `rasterio.open(post)` at line
149 (`Except.error ()` models an exception there, e.g. a corrupt post
raster — that call is NOT inside any `try`, so such an exception
propagates and aborts the split).  Windowed boundless reads on a
successfully opened dataset are zero-filled and modelled as total. -/
structure Pair where
  stem : String
  pcc : Except Unit (ℚ × ℚ)
  label : Option (Option JValue)
  raster : Except Unit RasterMeta

/-- Lines 139-141 of `make_chips.py`: `dx, dy = 0.0, 0.0` then
`try: dx, dy = estimate_shift(pre, post)` with a bare
`except: pass`. -/
def shiftResultOf (p : Pair) : ℚ × ℚ :=
  match p.pcc with
  | .ok v => estimate_shift v
  | .error _ => (0, 0)

/-- The shift-log entry `shifts[stem] = {"dx": dx, "dy": dy}` of one
pair. -/
def pairShiftEntry (p : Pair) : String × ℚ × ℚ := (p.stem, shiftResultOf p)

/-- The `for i, b in enumerate(feats)` loop of `process_split`: one chip
and one sidecar/manifest row per surviving feature, read from the opened
post raster `ras`. -/
def extractAll (p : Pair) (ras : RasterMeta) (dx dy : ℚ) (feats : List Feature) : List ChipOut :=
  (feats.enum).map fun bi =>
    let e := extractChip ras bi.2.geom
    { image_path := outPath p.stem bi.1
      label_int := bi.2.label_int
      label_text := bi.2.label_text
      stem := p.stem
      idx := bi.1
      shift_dx := dx
      shift_dy := dy
      win := e.1
      dims := e.2 }

/-- Chips of one pair, lines 143-158: no label file means `continue` (no
chips); an exception escaping `load_wkt_features` propagates (there is no
handler around the call at line 146); `if not feats: continue` at line
148 skips the pair BEFORE the raster is opened; otherwise
`rasterio.open(post)` at line 149 runs unguarded, so its failure
propagates too, and the surviving features are extracted. -/
def pairChips (wl : String → Option Geom) (p : Pair) : Except Unit (List ChipOut) :=
  match p.label with
  | none => .ok []
  | some content =>
    match load_wkt_features wl content with
    | .error e => .error e
    | .ok feats =>
      if feats.isEmpty then .ok []
      else
        match p.raster with
        | .error e => .error e
        | .ok ras => .ok (extractAll p ras (shiftResultOf p).1 (shiftResultOf p).2 feats)

/-- The `for stem, paths in pairs.items()` loop of `process_split`,
accumulating the shift log and the list of emitted chips (equivalently,
manifest rows).  An uncaught exception aborts the split: neither
`post_shifts.json` nor `manifest.csv` is written, modelled by
`Except.error`. -/
def processSplit (wl : String → Option Geom) :
    List Pair → Except Unit (List (String × ℚ × ℚ) × List ChipOut)
  | [] => .ok ([], [])
  | p :: rest =>
    match pairChips wl p with
    | .error e => .error e
    | .ok cs =>
      match processSplit wl rest with
      | .error e => .error e
      | .ok out => .ok (pairShiftEntry p :: out.1, cs ++ out.2)

/-- Filenames as character lists (ASCII). -/
abbrev FName := List Char

/-- Case folding of a filename, for the `re.IGNORECASE` regex match. -/
def lowerN (n : FName) : FName := n.map Char.toLower

/-- The literal part of the glob pattern `*_pre_disaster.*` used by
`images_dir.rglob`: a name matches the glob iff it contains this infix
(glob matching is case-sensitive). -/
def preMark : FName := "_pre_disaster.".data

/-- Whether a filename matches the glob `*_pre_disaster.*`. -/
def globPre (n : FName) : Bool := decide (preMark <:+: n)

/-- The `(kind, extension)` alternatives of
`PAIR_RX = re.compile(r"(.*)_(pre|post)_disaster\.(?:tif|tiff|png)$", re.IGNORECASE)`. -/
def rxTails : List (String × String) :=
  [("pre", "tif"), ("pre", "tiff"), ("pre", "png"),
   ("post", "tif"), ("post", "tiff"), ("post", "png")]

/-- The fixed tail `_(kind)_disaster.(ext)` that `PAIR_RX` anchors at the
end of the name. -/
def tailOf (kind ext : String) : FName := ("_" ++ kind ++ "_disaster." ++ ext).data

/-- `PAIR_RX.match(name)`, returning `(group(1), group(2), extension)`.
A name matches iff it ends, case-insensitively, in one of the six tails
`_(pre|post)_disaster.(tif|tiff|png)`; the greedy `(.*)` takes everything
before that tail.  No name can end in two distinct tails (none of the six
is a suffix of another, and suffixes of a common list are totally
ordered), so the decomposition is unique and the scan order is
immaterial. -/
def pairRx (n : FName) : Option (FName × String × String) :=
  match rxTails.find? (fun ke => (tailOf ke.1 ke.2).isSuffixOf (lowerN n)) with
  | some ke => some (n.take (n.length - (tailOf ke.1 ke.2).length), ke.1, ke.2)
  | none => none

/-- `p.with_name(stem + "_post_disaster" + p.suffix)` of line 131.
`p.suffix` is the part of the name from its last dot; for a name matched
by `PAIR_RX` that is the dot plus the extension, in original case, i.e.
the last `ext.length + 1` characters. -/
def builtPost (stem : FName) (n : FName) (ext : String) : FName :=
  stem ++ "_post_disaster".data ++ n.drop (n.length - (ext.length + 1))

/-- Python dict assignment `pairs[stem] = v` on an insertion-ordered
association list: overwrite in place if present, else append. -/
def upsert (k : FName) (v : FName × FName) : List (FName × FName × FName) → List (FName × FName × FName)
  | [] => [(k, v)]
  | e :: rest => if e.1 = k then (k, v) :: rest else e :: upsert k v rest

/-- One iteration of the pairing loop of `process_split` (lines 127-133):
skip names not matched by the glob or by `PAIR_RX`; otherwise construct
the post name from the stem and the pre name's suffix and record the pair
if that file exists in the directory. -/
def resolveStep (dir : List FName) (acc : List (FName × FName × FName)) (n : FName) :
    List (FName × FName × FName) :=
  if globPre n then
    match pairRx n with
    | some ske =>
      if builtPost ske.1 n ske.2.2 ∈ dir then upsert ske.1 (n, builtPost ske.1 n ske.2.2) acc
      else acc
    | none => acc
  else acc

/-- The tile-pair resolver of `process_split`: the `pairs` dict, as the
association list stem ↦ (pre, post), built by scanning the image
directory (given as its list of filenames, in scan order). -/
def resolvePairs (dir : List FName) : List (FName × FName × FName) :=
  dir.foldl (resolveStep dir) []

/-- One `*.json` file of a split directory of chips, as seen by
`build_catalog_for_split`: the filename without its `.json` suffix, and
the `json.load` outcome (`none` when opening or parsing raised, which the
per-sidecar `try` turns into `continue`). -/
structure SidecarFile where
  stem : String
  content : Option JValue

/-- One row appended to `catalog.csv` (all fields as the JSON values
fetched by `meta.get`, with the source's defaults). -/
structure CatalogRow where
  image_path : JValue
  label_int : JValue
  label_text : JValue
  tile_id : JValue
  event_id : JValue
  stem : JValue
  idx : JValue

/-- Body of the sidecar loop of `build_catalog_for_split` for one file.
`none` models `continue`: a `json.load` failure, a non-dict record (its
`meta.get` raises `AttributeError`, swallowed by the `try`), a falsy
`image_path` (including a missing one, where `meta.get` gives `None`), or
a missing sibling `.png` (`png` models `sc.with_suffix(".png").exists()`,
applied to the filename stem). -/
def rowOf (png : String → Bool) (sc : SidecarFile) : Option CatalogRow :=
  match sc.content with
  | some (.obj kvs) =>
    match kvs.lookup "image_path" with
    | some img =>
      if pyTruthy img && png sc.stem then
        some { image_path := img
               label_int := (kvs.lookup "label_int").getD .null
               label_text := (kvs.lookup "label_text").getD (.str "unknown")
               tile_id := (kvs.lookup "tile_id").getD (.str "")
               event_id := (kvs.lookup "event_id").getD (.str "")
               stem := (kvs.lookup "stem").getD (.str "")
               idx := (kvs.lookup "idx").getD (.num 0) }
      else none
    | none => none
  | _ => none

/-- `build_catalog_for_split` from `build_catalog.py`: the rows of
`catalog.csv`, one per surviving sidecar, in input order (the input list
is the `*.json` glob already in sorted order; when no row survives no
file is written, and the row list is empty either way). -/
def build_catalog_for_split (entries : List SidecarFile) (png : String → Bool) : List CatalogRow :=
  entries.filterMap (rowOf png)

/-- Decidable equality for `Except`, used to evaluate the model on
concrete inputs. -/
instance {ε α : Type} [DecidableEq ε] [DecidableEq α] : DecidableEq (Except ε α)
  | .ok a, .ok b => if h : a = b then .isTrue (by rw [h]) else .isFalse (by simp [h])
  | .ok _, .error _ => .isFalse (by simp)
  | .error _, .ok _ => .isFalse (by simp)
  | .error a, .error b => if h : a = b then .isTrue (by rw [h]) else .isFalse (by simp [h])

/-- A WKT oracle for concrete evaluations: exactly one well-known text
parses, to a valid geometry with centroid at the origin. -/
def wlTest : String → Option Geom :=
  fun s => if s = "POLYGON OK" then some ⟨(0, 0), true⟩ else none

/-- A building feature record with the given damage subtype, for concrete
evaluations. -/
def bldgFeat (sub : String) : JValue :=
  .obj [("properties", .obj [("feature_type", .str "building"), ("subtype", .str sub)]),
        ("wkt", .str "POLYGON OK")]

/-- A 512×512 post raster with a single band, whose georeferencing sends
every point to pixel index `(row, col) = (10, 10)`. -/
def ras1band : RasterMeta := ⟨512, 512, 1, fun _ => (10, 10)⟩

/-- A valid geometry with centroid at the origin. -/
def gOrigin : Geom := ⟨(0, 0), true⟩

/-- A 512×512 three-band post raster with the identity north-up affine
transform: `ds.index (x, y)` returns `(row, col) = (floor y, floor x)`. -/
def rasIdentity : RasterMeta := ⟨512, 512, 3, fun c => (Rat.floor c.2, Rat.floor c.1)⟩

/-- A valid geometry whose centroid sits at pixel column 10, row 256 of
`rasIdentity`. -/
def gOffDiagonal : Geom := ⟨(10, 256), true⟩

/-- A 512×512 three-band raster whose georeferencing sends every point to
pixel index `(10, 10)`, for concrete orchestrator runs. -/
def rasTest : RasterMeta := ⟨512, 512, 3, fun _ => (10, 10)⟩

/-- A resolved pair whose label file is absent (and whose registration
raised, so its recorded shift is the zero default). -/
def pairNoLabel : Pair := ⟨"eventA", .error (), none, .ok rasTest⟩

/-- A resolved pair whose shift estimation raised but whose post raster
still opens, with a label file holding one destroyed building (the
estimator-internal failure regime: corrupt pre raster, shape mismatch,
zero-variance plane). -/
def pairFail : Pair :=
  ⟨"eventB", .error (),
    some (some (.obj [("features", .arr [bldgFeat "destroyed"])])), .ok rasTest⟩

/-- A resolved pair with a corrupt post raster: the registration raised
(caught, zero default), the label file holds one destroyed building, and
`rasterio.open(post)` raises again — this time uncaught. -/
def pairCorruptPost : Pair :=
  ⟨"eventC", .error (),
    some (some (.obj [("features", .arr [bldgFeat "destroyed"])])), .error ()⟩

/-- The fields of the JSON sidecar written for a chip (the byte content of
the sidecar is determined by them). -/
def sidecarFields (c : ChipOut) : String × Nat × String × String × Nat × ℚ × ℚ :=
  (c.image_path, c.label_int, c.label_text, c.stem, c.idx, c.shift_dx, c.shift_dy)

/-- The per-split shift log `post_shifts.json` as a sidecar-directory
entry: stem → dx/dy objects, no `image_path` field. -/
def shiftLogFile : SidecarFile :=
  ⟨"post_shifts", some (.obj [("eventA", .obj [("dx", .num 0), ("dy", .num 0)])])⟩

theorem lookup_bound_of_vals {l : List (String × Nat)} (h : ∀ p ∈ l, p.2 ≤ 3) (s : String) :
    ((l.lookup s).getD 0) ≤ 3 := by
  induction l with
  | nil => simp
  | cons hd tl ih =>
    simp only [List.lookup]
    split
    · exact h hd (List.mem_cons_self _ _)
    · exact ih fun p hp => h p (List.mem_cons_of_mem _ hp)

theorem lookup_eq_none_of_not_mem {β : Type} {l : List (String × β)} {s : String}
    (h : s ∉ l.map Prod.fst) : l.lookup s = none := by
  induction l with
  | nil => rfl
  | cons hd tl ih =>
    simp only [List.map, List.mem_cons, not_or] at h
    simp only [List.lookup, beq_eq_false_iff_ne.mpr h.1, ih h.2]

theorem damapGet_le (s : String) : damapGet s ≤ 3 :=
  lookup_bound_of_vals (by decide) s

theorem featOf_label_bound {wl : String → Option Geom} {ft : JValue} {f : Feature}
    (h : featOf wl ft = .ok (some f)) : f.label_int ≤ 3 := by
  cases ft <;> simp only [featOf] at h
  case obj kvs =>
    split at h
    case h_2 => exact absurd h (by simp)
    case h_1 pvs heq =>
      split at h
      case isFalse => exact absurd h (by simp)
      case isTrue =>
        split at h
        case h_2 => exact absurd h (by simp)
        case h_1 w hw =>
          split at h
          case h_2 => exact absurd h (by simp)
          case h_1 geom hg =>
            split at h
            case isFalse => exact absurd h (by simp)
            case isTrue =>
              simp only [Except.ok.injEq, Option.some.injEq] at h
              subst h
              exact damapGet_le _
  all_goals exact absurd h (by simp)

theorem featLoop_label_bound {wl : String → Option Geom} {l : List JValue} {fs : List Feature}
    (h : featLoop wl l = .ok fs) : ∀ f ∈ fs, f.label_int ≤ 3 := by
  induction l generalizing fs with
  | nil =>
    simp only [featLoop, Except.ok.injEq] at h
    subst h; simp
  | cons ft rest ih =>
    simp only [featLoop] at h
    split at h
    · exact absurd h (by simp)
    case h_2 o ho =>
      split at h
      · exact absurd h (by simp)
      case h_2 out hout =>
        simp only [Except.ok.injEq] at h
        subst h
        intro f hf
        cases o with
        | none => exact ih hout f hf
        | some g =>
          rcases List.mem_cons.mp hf with hfg | hf2
          · subst hfg; exact featOf_label_bound ho
          · exact ih hout f hf2

theorem load_wkt_features_label_bound {wl : String → Option Geom} {j : Option JValue}
    {fs : List Feature} (h : load_wkt_features wl j = .ok fs) :
    ∀ f ∈ fs, f.label_int ≤ 3 := by
  cases j with
  | none =>
    simp only [load_wkt_features, Except.ok.injEq] at h
    subst h; simp
  | some gj =>
    simp only [load_wkt_features] at h
    split at h
    · exact absurd h (by simp)
    case h_2 feats hfeats => exact featLoop_label_bound h

/-- Claim C3: the damage taxonomy maps every recognized vocabulary variant
to its ordinal class (no-damage/none/undamaged to 0, the minor variants to
1, the major variants to 2, destroyed/total-destruction to 3), every
string outside the table and a missing subtype to class 0, and every
feature parsed by `load_wkt_features` carries a `label_int` in
\x7b0, 1, 2, 3\x7d. -/
theorem c3_damage_taxonomy :
    (damapGet "no-damage" = 0 ∧ damapGet "none" = 0 ∧ damapGet "undamaged" = 0 ∧
     damapGet "minor-damage" = 1 ∧ damapGet "minor_damage" = 1 ∧ damapGet "minor" = 1 ∧
     damapGet "major-damage" = 2 ∧ damapGet "major_damage" = 2 ∧ damapGet "major" = 2 ∧
     damapGet "destroyed" = 3 ∧ damapGet "total-destruction" = 3 ∧
     damapGet (pyLower (pyStr ((List.lookup "subtype" []).getD (.str "unknown")))) = 0) ∧
    (∀ s : String, s ∉ DAMAP.map Prod.fst → damapGet s = 0) ∧
    (∀ (wl : String → Option Geom) (j : Option JValue) (fs : List Feature),
       load_wkt_features wl j = .ok fs → ∀ f ∈ fs, f.label_int ∈ [0, 1, 2, 3]) := by
  refine ⟨by decide, ?_, ?_⟩
  · intro s hs
    simp only [damapGet, lookup_eq_none_of_not_mem hs, Option.getD_none]
  · intro wl j fs h f hf
    have hb := load_wkt_features_label_bound h f hf
    simp only [List.mem_cons, List.not_mem_nil, or_false]
    omega

/-- Witness for C3 at a concrete unrecognized string. -/
theorem c3_damage_taxonomy_witness : damapGet "collapsed" = 0 :=
  c3_damage_taxonomy.2.1 "collapsed" (by decide)

theorem npClip_abs_le (x : ℚ) : |npClip x (-MAX_SHIFT_PX) MAX_SHIFT_PX| ≤ MAX_SHIFT_PX := by
  rw [npClip, abs_le]
  split_ifs with h1 h2
  · constructor <;> norm_num [MAX_SHIFT_PX]
  · constructor <;> norm_num [MAX_SHIFT_PX]
  · push_neg at h1 h2
    exact ⟨h1, h2⟩

/-- Claim C6: for every successful shift estimate, both returned
components (the raw estimator output rescaled by the downsampling factor)
are clamped into `[-MAX_SHIFT_PX, MAX_SHIFT_PX] = [-20, 20]`, so the
recorded estimate always satisfies `|dx| ≤ 20` and `|dy| ≤ 20`. -/
theorem c6_shift_clamped (shift : ℚ × ℚ) :
    |(estimate_shift shift).1| ≤ 20 ∧ |(estimate_shift shift).2| ≤ 20 :=
  ⟨npClip_abs_le _, npClip_abs_le _⟩

/-- Claim C4 (code bug): the recognized label shapes parse without
raising — a record with a flat `features` array, with `features` as an
object whose `lng_lat` and `xy` sub-arrays are concatenated, a bare
array, an unparsable record and an unrecognized shape all yield a list —
but a record whose `features` object carries a non-iterable `lng_lat`
value makes `feats += f.get("lng_lat", [])` raise an uncaught
`TypeError`, modelled by `.error ()`, instead of yielding the empty
list. -/
theorem c4_parser_totality_fails :
    load_wkt_features wlTest (some (.obj [("features", .arr [bldgFeat "destroyed"])]))
      = .ok [⟨⟨(0, 0), true⟩, 3, "destroyed"⟩] ∧
    load_wkt_features wlTest
        (some (.obj [("features",
          .obj [("lng_lat", .arr [bldgFeat "minor-damage"]), ("xy", .arr [bldgFeat "no-damage"])])]))
      = .ok [⟨⟨(0, 0), true⟩, 1, "minor-damage"⟩, ⟨⟨(0, 0), true⟩, 0, "no-damage"⟩] ∧
    load_wkt_features wlTest (some (.arr [bldgFeat "major"]))
      = .ok [⟨⟨(0, 0), true⟩, 2, "major"⟩] ∧
    load_wkt_features wlTest none = .ok [] ∧
    load_wkt_features wlTest (some (.num 5)) = .ok [] ∧
    load_wkt_features wlTest (some (.obj [("features", .obj [("lng_lat", .num 5)])]))
      = .error () := by
  refine ⟨?_, ?_, ?_, ?_, ?_, ?_⟩ <;> decide

/-- Claim C1 (code bug): the extraction window is always the full
`CROP_SIZE × CROP_SIZE` square, clamped inside the raster, but on a
single-band raster the emitted chip has shape 128×128×1, not 128×128×3:
the windowed read is always 3-dimensional, so the
`if chip.ndim == 2` replication branch never fires. -/
theorem c1_chip_channels_bug :
    extractChip ras1band gOrigin = (⟨0, 0, 128, 128⟩, [128, 128, 1]) ∧
    ([128, 128, 1] : List Nat) ≠ [128, 128, 3] := by
  refine ⟨?_, ?_⟩ <;> decide

/-- Claim C2 (code bug): on a 512×512 raster with the identity transform
and a building centroid at pixel `(col, row) = (10, 256)`, the claimed
formula places the window's top-left corner at `(col0, row0) = (0, 192)`
(computed by `spec_chip_window`), but the code passes the `(row, col)`
pair returned by `ds.index` into the `(col, row)` parameters of
`safe_window_centered` and produces the transposed corner `(192, 0)`. -/
theorem c2_window_transposed :
    (extractChip rasIdentity gOffDiagonal).1 = ⟨192, 0, 128, 128⟩ ∧
    spec_chip_window rasIdentity gOffDiagonal = ⟨0, 192, 128, 128⟩ ∧
    (extractChip rasIdentity gOffDiagonal).1 ≠ spec_chip_window rasIdentity gOffDiagonal := by
  refine ⟨?_, ?_, ?_⟩ <;> decide

theorem shiftResultOf_of_error {p : Pair} (h : p.pcc = .error ()) : shiftResultOf p = (0, 0) := by
  simp only [shiftResultOf, h]

theorem pairChips_of_no_label {wl : String → Option Geom} {p : Pair} (h : p.label = none) :
    pairChips wl p = .ok [] := by
  simp only [pairChips, h]

theorem pairChips_fields {wl : String → Option Geom} {p : Pair} {cs : List ChipOut}
    (h : pairChips wl p = .ok cs) :
    ∀ c ∈ cs, c.stem = p.stem ∧ c.shift_dx = (shiftResultOf p).1 ∧
      c.shift_dy = (shiftResultOf p).2 := by
  intro c hc
  simp only [pairChips] at h
  split at h
  · simp only [Except.ok.injEq] at h
    subst h; simp at hc
  split at h
  · exact absurd h (by simp)
  case h_2 feats hfeats =>
    split at h
    · simp only [Except.ok.injEq] at h
      subst h; simp at hc
    split at h
    · exact absurd h (by simp)
    case h_2 ras hras =>
      simp only [Except.ok.injEq] at h
      subst h
      simp only [extractAll, List.mem_map] at hc
      obtain ⟨bi, _, hbi⟩ := hc
      subst hbi
      exact ⟨rfl, rfl, rfl⟩

theorem processSplit_shifts {wl : String → Option Geom} {ps : List Pair}
    {out : List (String × ℚ × ℚ) × List ChipOut} (h : processSplit wl ps = .ok out) :
    out.1 = ps.map pairShiftEntry := by
  induction ps generalizing out with
  | nil =>
    simp only [processSplit, Except.ok.injEq] at h
    subst h; rfl
  | cons p rest ih =>
    simp only [processSplit] at h
    split at h
    · exact absurd h (by simp)
    split at h
    · exact absurd h (by simp)
    case h_2 out2 hout2 =>
      simp only [Except.ok.injEq] at h
      subst h
      simp only [List.map, List.cons.injEq, true_and]
      exact ih hout2

theorem processSplit_chips_src {wl : String → Option Geom} {ps : List Pair}
    {out : List (String × ℚ × ℚ) × List ChipOut} (h : processSplit wl ps = .ok out) :
    ∀ c ∈ out.2, ∃ q ∈ ps, ∃ cs, pairChips wl q = .ok cs ∧ c ∈ cs := by
  induction ps generalizing out with
  | nil =>
    simp only [processSplit, Except.ok.injEq] at h
    subst h; simp
  | cons p rest ih =>
    simp only [processSplit] at h
    split at h
    · exact absurd h (by simp)
    case h_2 cs hcs =>
      split at h
      · exact absurd h (by simp)
      case h_2 out2 hout2 =>
        simp only [Except.ok.injEq] at h
        subst h
        intro c hc
        rcases List.mem_append.mp hc with hl | hr
        · exact ⟨p, List.mem_cons_self _ _, cs, hcs, hl⟩
        · obtain ⟨q, hq, cs2, hcs2, hc2⟩ := ih hout2 c hr
          exact ⟨q, List.mem_cons_of_mem _ hq, cs2, hcs2, hc2⟩

theorem processSplit_pair_chips {wl : String → Option Geom} {ps1 ps2 : List Pair} {p : Pair}
    {out : List (String × ℚ × ℚ) × List ChipOut}
    (h : processSplit wl (ps1 ++ p :: ps2) = .ok out) :
    ∃ cs, pairChips wl p = .ok cs ∧ ∀ c ∈ cs, c ∈ out.2 := by
  induction ps1 generalizing out with
  | nil =>
    simp only [List.nil_append, processSplit] at h
    split at h
    · exact absurd h (by simp)
    case h_2 cs hcs =>
      split at h
      · exact absurd h (by simp)
      case h_2 out2 hout2 =>
        simp only [Except.ok.injEq] at h
        subst h
        exact ⟨cs, hcs, fun c hc => List.mem_append.mpr (Or.inl hc)⟩
  | cons a t ih =>
    simp only [List.cons_append, processSplit] at h
    split at h
    · exact absurd h (by simp)
    case h_2 cs0 hcs0 =>
      split at h
      · exact absurd h (by simp)
      case h_2 out2 hout2 =>
        simp only [Except.ok.injEq] at h
        subst h
        obtain ⟨cs, hcs, hmem⟩ := ih hout2
        exact ⟨cs, hcs, fun c hc => List.mem_append.mpr (Or.inr (hmem c hc))⟩

theorem processSplit_ok_of_all (wl : String → Option Geom) (ps : List Pair)
    (h : ∀ q ∈ ps, ∃ cs, pairChips wl q = .ok cs) :
    ∃ out, processSplit wl ps = .ok out := by
  induction ps with
  | nil => exact ⟨([], []), rfl⟩
  | cons p rest ih =>
    obtain ⟨cs, hcs⟩ := h p (List.mem_cons_self _ _)
    obtain ⟨out2, hout2⟩ := ih fun q hq => h q (List.mem_cons_of_mem _ hq)
    exact ⟨(pairShiftEntry p :: out2.1, cs ++ out2.2), by simp only [processSplit, hcs, hout2]⟩

/-- Counterexample to claim C5: for a corrupt post raster — one of the
failure reasons the claim itself names — the exception inside
`estimate_shift` is caught and the zero default is recorded, but the
unguarded `rasterio.open(post)` at line 149 then raises the same error
uncaught: the pair's chips are not extracted, the remaining pair of the
split is never processed, and no shift log is written (the run aborts,
modelled by `Except.error`). -/
theorem c5_corrupt_post_counterexample :
    pairCorruptPost.pcc = .error () ∧
    shiftResultOf pairCorruptPost = (0, 0) ∧
    pairChips wlTest pairCorruptPost = .error () ∧
    processSplit wlTest (pairCorruptPost :: [pairNoLabel]) = .error () := by
  refine ⟨rfl, rfl, ?_, ?_⟩ <;> decide

/-- Claim C5 as amended: when shift estimation fails for a pair, the
failure is caught and the pair's recorded shift is the zero default;
provided every pair's own extraction body raises no exception — its label
file is absent, or it parses without raising and (when features survive)
the post raster opens — the split completes, the failed pair's chips are
still extracted (with zero shift metadata) and every remaining pair still
contributes its shift entry.  This covers estimator-internal failures
(corrupt pre raster, shape mismatch, zero-variance plane); a corrupt POST
raster instead aborts the split at the unguarded `rasterio.open`. -/
theorem c5_registration_failure_amended (wl : String → Option Geom) (ps1 ps2 : List Pair)
    (p : Pair) (h1 : p.pcc = .error ())
    (hall : ∀ q ∈ ps1 ++ p :: ps2, ∃ cs, pairChips wl q = .ok cs) :
    ∃ out, processSplit wl (ps1 ++ p :: ps2) = .ok out ∧
      ((p.stem, (0 : ℚ), (0 : ℚ)) ∈ out.1 ∧
       (∃ cs, pairChips wl p = .ok cs ∧ (∀ c ∈ cs, c ∈ out.2) ∧
          ∀ c ∈ cs, c.shift_dx = 0 ∧ c.shift_dy = 0) ∧
       (∀ q ∈ ps2, pairShiftEntry q ∈ out.1)) := by
  obtain ⟨out, hout⟩ := processSplit_ok_of_all wl _ hall
  have hs := processSplit_shifts hout
  have hmemp : p ∈ ps1 ++ p :: ps2 := List.mem_append.mpr (Or.inr (List.mem_cons_self _ _))
  refine ⟨out, hout, ?_, ?_, ?_⟩
  · have hpe : pairShiftEntry p = (p.stem, (0 : ℚ), (0 : ℚ)) := by
      simp [pairShiftEntry, shiftResultOf_of_error h1]
    rw [hs, ← hpe]
    exact List.mem_map_of_mem _ hmemp
  · obtain ⟨cs, hcs, hmem⟩ := processSplit_pair_chips hout
    refine ⟨cs, hcs, hmem, fun c hc => ?_⟩
    have hf := pairChips_fields hcs c hc
    rw [hf.2.1, hf.2.2, shiftResultOf_of_error h1]
    exact ⟨rfl, rfl⟩
  · intro q hq
    rw [hs]
    exact List.mem_map_of_mem _ (List.mem_append.mpr (Or.inr (List.mem_cons_of_mem _ hq)))

/-- Witness for C5 (amended) at a one-pair split whose estimation failed
but whose post raster opens. -/
theorem c5_registration_failure_witness :
    ∃ out, processSplit wlTest ([] ++ pairFail :: []) = .ok out ∧
      ((pairFail.stem, (0 : ℚ), (0 : ℚ)) ∈ out.1 ∧
       (∃ cs, pairChips wlTest pairFail = .ok cs ∧ (∀ c ∈ cs, c ∈ out.2) ∧
          ∀ c ∈ cs, c.shift_dx = 0 ∧ c.shift_dy = 0) ∧
       (∀ q ∈ ([] : List Pair), pairShiftEntry q ∈ out.1)) := by
  apply c5_registration_failure_amended wlTest [] [] pairFail rfl
  intro q hq
  rw [show q = pairFail from by simpa using hq]
  exact ⟨[⟨"eventB_b00000.png", 3, "destroyed", "eventB", 0, 0, 0, ⟨0, 0, 128, 128⟩,
    [128, 128, 3]⟩], by decide⟩

/-- Claim C8: a pair whose label file is absent yields no chip (hence no
manifest row) carrying its stem, yet contributes exactly one entry to the
shift log, which has one entry per processed pair. -/
theorem c8_missing_label_logged (wl : String → Option Geom) (ps : List Pair) (p : Pair)
    (out : List (String × ℚ × ℚ) × List ChipOut)
    (hnodup : (ps.map Pair.stem).Nodup) (hp : p ∈ ps) (hlabel : p.label = none)
    (h : processSplit wl ps = .ok out) :
    out.2.filter (fun c => c.stem == p.stem) = [] ∧
    out.1.countP (fun e => e.1 == p.stem) = 1 := by
  constructor
  · rw [List.filter_eq_nil_iff]
    intro c hc hcp
    obtain ⟨q, hq, cs, hcs, hccs⟩ := processSplit_chips_src h c hc
    have hst : c.stem = q.stem := (pairChips_fields hcs c hccs).1
    have hqp : q = p := by
      refine List.inj_on_of_nodup_map hnodup hq hp ?_
      rw [← hst]
      exact beq_iff_eq.mp hcp
    subst hqp
    rw [pairChips_of_no_label hlabel] at hcs
    simp only [Except.ok.injEq] at hcs
    subst hcs
    exact List.not_mem_nil c hccs
  · rw [processSplit_shifts h]
    have hrw : (ps.map pairShiftEntry).countP (fun e => e.1 == p.stem)
        = (ps.map Pair.stem).count p.stem := by
      rw [List.countP_map, List.count_eq_countP, List.countP_map]
      rfl
    rw [hrw]
    exact List.count_eq_one_of_mem hnodup (List.mem_map_of_mem _ hp)

/-- Witness for C8 at a one-pair split without a label file. -/
theorem c8_missing_label_witness :
    ∃ out, processSplit wlTest [pairNoLabel] = .ok out ∧
      (out.2.filter (fun c => c.stem == pairNoLabel.stem) = [] ∧
       out.1.countP (fun e => e.1 == pairNoLabel.stem) = 1) := by
  refine ⟨([("eventA", 0, 0)], []), by decide, ?_⟩
  exact c8_missing_label_logged wlTest [pairNoLabel] pairNoLabel _ (by decide)
    (List.mem_singleton.mpr rfl) rfl (by decide)

/-- Claim C9: two runs of the extraction over the same inputs produce
identical sidecar contents (image path, label_int, label_text, stem,
idx and the dx/dy of the deterministic estimator), identical chip
dimensions, and identical shift logs.  The pipeline is embedded as a pure
function of its inputs, so determinism over fixed inputs is inherited by
every output field. -/
theorem c9_two_runs_identical (wl : String → Option Geom) (ps : List Pair)
    (out1 out2 : List (String × ℚ × ℚ) × List ChipOut)
    (h1 : processSplit wl ps = .ok out1) (h2 : processSplit wl ps = .ok out2) :
    out1.2.map sidecarFields = out2.2.map sidecarFields ∧
    out1.2.map ChipOut.dims = out2.2.map ChipOut.dims ∧
    out1.1 = out2.1 := by
  have h := h1.symm.trans h2
  simp only [Except.ok.injEq] at h
  subst h
  exact ⟨rfl, rfl, rfl⟩

/-- Witness for C9 on a concrete one-pair split. -/
theorem c9_two_runs_witness :
    ∃ out1 out2,
      processSplit wlTest [pairNoLabel] = .ok out1 ∧
      processSplit wlTest [pairNoLabel] = .ok out2 ∧
      (out1.2.map sidecarFields = out2.2.map sidecarFields ∧
       out1.2.map ChipOut.dims = out2.2.map ChipOut.dims ∧
       out1.1 = out2.1) := by
  refine ⟨([("eventA", 0, 0)], []), ([("eventA", 0, 0)], []), by decide, by decide, ?_⟩
  exact c9_two_runs_identical wlTest [pairNoLabel] _ _ (by decide) (by decide)

/-- Claim C10: every catalog row comes from a sidecar JSON that is an
object carrying a truthy (non-empty) `image_path` and whose sibling
`.png` exists; and any `*.json` file without an `image_path` field — in
particular the per-split shift log `post_shifts.json`, which lives in the
same directory and matches the glob — contributes no row. -/
theorem c10_catalog_rows :
    (∀ (entries : List SidecarFile) (png : String → Bool) (row : CatalogRow),
       row ∈ build_catalog_for_split entries png →
       ∃ sc ∈ entries, ∃ kvs, sc.content = some (.obj kvs) ∧
         (∃ v, kvs.lookup "image_path" = some v ∧ pyTruthy v = true) ∧
         png sc.stem = true) ∧
    (∀ (png : String → Bool) (sc : SidecarFile) (kvs : List (String × JValue)),
       sc.content = some (.obj kvs) → kvs.lookup "image_path" = none →
       rowOf png sc = none) := by
  constructor
  · intro entries png row hrow
    obtain ⟨sc, hsc, hr⟩ := List.mem_filterMap.mp hrow
    simp only [rowOf] at hr
    split at hr
    case h_2 => exact absurd hr (by simp)
    case h_1 kvs heq =>
      split at hr
      case h_2 => exact absurd hr (by simp)
      case h_1 img himg =>
        split at hr
        case isFalse => exact absurd hr (by simp)
        case isTrue hcond =>
          rw [Bool.and_eq_true] at hcond
          exact ⟨sc, hsc, kvs, heq, ⟨img, himg, hcond.1⟩, hcond.2⟩
  · intro png sc kvs h1 h2
    simp only [rowOf, h1, h2]

/-- Witness for C10: the shift log contributes no catalog row. -/
theorem c10_catalog_witness : rowOf (fun _ => true) shiftLogFile = none :=
  c10_catalog_rows.2 (fun _ => true) shiftLogFile
    [("eventA", .obj [("dx", .num 0), ("dy", .num 0)])] rfl rfl

theorem suffix_of_suffix_length_le {l1 l2 l3 : List Char} (h1 : l1 <:+ l3) (h2 : l2 <:+ l3)
    (h : l1.length ≤ l2.length) : l1 <:+ l2 :=
  List.reverse_prefix.mp
    (List.prefix_of_prefix_length_le (List.reverse_prefix.mpr h1) (List.reverse_prefix.mpr h2)
      (by simpa using h))

theorem not_suffix_append {p t : List Char} (s : List Char) (h1 : ¬p <:+ t) (h2 : ¬t <:+ p) :
    ¬p <:+ s ++ t := by
  intro h
  rcases le_or_lt p.length t.length with hle | hlt
  · exact h1 (suffix_of_suffix_length_le h (List.suffix_append s t) hle)
  · exact h2 (suffix_of_suffix_length_le (List.suffix_append s t) h hlt.le)

theorem isSuffixOf_append_false (p t s : List Char) (h1 : ¬p <:+ t) (h2 : ¬t <:+ p) :
    p.isSuffixOf (s ++ t) = false := by
  rw [← Bool.not_eq_true, List.isSuffixOf_iff_suffix]
  exact not_suffix_append s h1 h2

theorem isSuffixOf_append_true (s t : List Char) : t.isSuffixOf (s ++ t) = true := by
  rw [List.isSuffixOf_iff_suffix]
  exact List.suffix_append s t

theorem lowerN_append_concrete (t s : FName) (ht : t.map Char.toLower = t) :
    lowerN (s ++ t) = lowerN s ++ t := by
  rw [lowerN, List.map_append, ht]
  rfl

theorem pairRx_append_pre (s : FName) (e : String) (he : e ∈ (["tif", "tiff", "png"] : List String)) :
    pairRx (s ++ tailOf "pre" e) = some (s, "pre", e) := by
  simp only [List.mem_cons, List.not_mem_nil, or_false] at he
  rcases he with rfl | rfl | rfl
  · have hstem : (s ++ tailOf "pre" "tif").length - (tailOf "pre" "tif").length = s.length := by
      rw [List.length_append, Nat.add_sub_cancel]
    have hl := lowerN_append_concrete (tailOf "pre" "tif") s (by decide)
    simp only [pairRx, rxTails, List.find?, hl, isSuffixOf_append_true (lowerN s) (tailOf "pre" "tif")]
    rw [hstem, List.take_left]
  · have hstem : (s ++ tailOf "pre" "tiff").length - (tailOf "pre" "tiff").length = s.length := by
      rw [List.length_append, Nat.add_sub_cancel]
    have hl := lowerN_append_concrete (tailOf "pre" "tiff") s (by decide)
    simp only [pairRx, rxTails, List.find?, hl,
      isSuffixOf_append_false (tailOf "pre" "tif") (tailOf "pre" "tiff") (lowerN s)
        (by decide) (by decide),
      isSuffixOf_append_true (lowerN s) (tailOf "pre" "tiff")]
    rw [hstem, List.take_left]
  · have hstem : (s ++ tailOf "pre" "png").length - (tailOf "pre" "png").length = s.length := by
      rw [List.length_append, Nat.add_sub_cancel]
    have hl := lowerN_append_concrete (tailOf "pre" "png") s (by decide)
    simp only [pairRx, rxTails, List.find?, hl,
      isSuffixOf_append_false (tailOf "pre" "tif") (tailOf "pre" "png") (lowerN s)
        (by decide) (by decide),
      isSuffixOf_append_false (tailOf "pre" "tiff") (tailOf "pre" "png") (lowerN s)
        (by decide) (by decide),
      isSuffixOf_append_true (lowerN s) (tailOf "pre" "png")]
    rw [hstem, List.take_left]

theorem globPre_append_pre (s : FName) (e : String)
    (he : e ∈ (["tif", "tiff", "png"] : List String)) :
    globPre (s ++ tailOf "pre" e) = true := by
  simp only [List.mem_cons, List.not_mem_nil, or_false] at he
  simp only [globPre, decide_eq_true_eq]
  rcases he with rfl | rfl | rfl
  · exact ⟨s, "tif".data, by rw [List.append_assoc]; congr 1⟩
  · exact ⟨s, "tiff".data, by rw [List.append_assoc]; congr 1⟩
  · exact ⟨s, "png".data, by rw [List.append_assoc]; congr 1⟩

theorem builtPost_append_pre (s : FName) (e : String)
    (he : e ∈ (["tif", "tiff", "png"] : List String)) :
    builtPost s (s ++ tailOf "pre" e) e = s ++ tailOf "post" e := by
  simp only [List.mem_cons, List.not_mem_nil, or_false] at he
  rcases he with rfl | rfl | rfl
  · rw [builtPost]
    have hd : (s ++ tailOf "pre" "tif").length - ("tif".length + 1) = s.length + 13 := by
      have h17 : (tailOf "pre" "tif").length = 17 := by decide
      have h3 : "tif".length = 3 := by decide
      rw [List.length_append, h17, h3]
      omega
    rw [hd, List.drop_append, List.append_assoc]
    congr 1
  · rw [builtPost]
    have hd : (s ++ tailOf "pre" "tiff").length - ("tiff".length + 1) = s.length + 13 := by
      have h18 : (tailOf "pre" "tiff").length = 18 := by decide
      have h4 : "tiff".length = 4 := by decide
      rw [List.length_append, h18, h4]
      omega
    rw [hd, List.drop_append, List.append_assoc]
    congr 1
  · rw [builtPost]
    have hd : (s ++ tailOf "pre" "png").length - ("png".length + 1) = s.length + 13 := by
      have h17 : (tailOf "pre" "png").length = 17 := by decide
      have h3 : "png".length = 3 := by decide
      rw [List.length_append, h17, h3]
      omega
    rw [hd, List.drop_append, List.append_assoc]
    congr 1

theorem upsert_keys_self (k : FName) (v : FName × FName) (acc : List (FName × FName × FName)) :
    k ∈ (upsert k v acc).map Prod.fst := by
  induction acc with
  | nil => simp [upsert]
  | cons e rest ih =>
    rw [upsert]
    split
    case isTrue heq => exact List.mem_map_of_mem _ (List.mem_cons_self _ _)
    case isFalse =>
      rw [List.map_cons]
      exact List.mem_cons_of_mem _ ih

theorem upsert_keys_mono (k : FName) (v : FName × FName) {s : FName}
    {acc : List (FName × FName × FName)} (h : s ∈ acc.map Prod.fst) :
    s ∈ (upsert k v acc).map Prod.fst := by
  induction acc with
  | nil => exact absurd h (by simp)
  | cons e rest ih =>
    rw [List.map_cons] at h
    rw [upsert]
    split
    case isTrue heq =>
      rw [List.map_cons]
      rcases List.mem_cons.mp h with hse | hrest
      · exact List.mem_cons.mpr (Or.inl (by rw [hse]; exact heq))
      · exact List.mem_cons.mpr (Or.inr hrest)
    case isFalse =>
      rw [List.map_cons]
      rcases List.mem_cons.mp h with hse | hrest
      · exact List.mem_cons.mpr (Or.inl hse)
      · exact List.mem_cons.mpr (Or.inr (ih hrest))

theorem upsert_keys_sub (k : FName) (v : FName × FName) {s : FName}
    {acc : List (FName × FName × FName)} (h : s ∈ (upsert k v acc).map Prod.fst) :
    s = k ∨ s ∈ acc.map Prod.fst := by
  induction acc with
  | nil =>
    rw [upsert, List.map_cons] at h
    rcases List.mem_cons.mp h with hse | habs
    · exact Or.inl hse
    · exact absurd habs (by simp)
  | cons e rest ih =>
    rw [upsert] at h
    split at h
    case isTrue heq =>
      rw [List.map_cons] at h
      rcases List.mem_cons.mp h with hse | hrest
      · exact Or.inl hse
      · exact Or.inr (by rw [List.map_cons]; exact List.mem_cons_of_mem _ hrest)
    case isFalse =>
      rw [List.map_cons] at h
      rcases List.mem_cons.mp h with hse | hrest
      · exact Or.inr (by rw [List.map_cons]; exact List.mem_cons.mpr (Or.inl hse))
      · rcases ih hrest with hk | hacc
        · exact Or.inl hk
        · exact Or.inr (by rw [List.map_cons]; exact List.mem_cons_of_mem _ hacc)

theorem resolveStep_keys_mono (dir : List FName) (acc : List (FName × FName × FName)) (n : FName)
    {s : FName} (h : s ∈ acc.map Prod.fst) : s ∈ (resolveStep dir acc n).map Prod.fst := by
  rw [resolveStep]
  split
  · split
    · split
      · exact upsert_keys_mono _ _ h
      · exact h
    · exact h
  · exact h

theorem foldl_keys_mono (dir : List FName) (l : List FName) {acc : List (FName × FName × FName)}
    {s : FName} (h : s ∈ acc.map Prod.fst) :
    s ∈ (l.foldl (resolveStep dir) acc).map Prod.fst := by
  induction l generalizing acc with
  | nil => exact h
  | cons n t ih =>
    rw [List.foldl_cons]
    exact ih (resolveStep_keys_mono dir acc n h)

theorem resolveStep_hit (dir : List FName) (acc : List (FName × FName × FName)) (n : FName)
    {stem : FName} {k e : String} (hg : globPre n = true) (hrx : pairRx n = some (stem, k, e))
    (hpost : builtPost stem n e ∈ dir) : stem ∈ (resolveStep dir acc n).map Prod.fst := by
  rw [resolveStep, if_pos hg, hrx]
  simp only
  rw [if_pos hpost]
  exact upsert_keys_self _ _ _

theorem resolveStep_keys_sub (dir : List FName) (acc : List (FName × FName × FName)) (n : FName)
    {s : FName} (h : s ∈ (resolveStep dir acc n).map Prod.fst) :
    (globPre n = true ∧ ∃ k e, pairRx n = some (s, k, e) ∧ builtPost s n e ∈ dir) ∨
      s ∈ acc.map Prod.fst := by
  rw [resolveStep] at h
  split at h
  case isFalse => exact Or.inr h
  case isTrue hg =>
    split at h
    case h_2 => exact Or.inr h
    case h_1 ske hrx =>
      obtain ⟨st, k, e⟩ := ske
      split at h
      case isFalse => exact Or.inr h
      case isTrue hpost =>
        rcases upsert_keys_sub _ _ h with hsk | hacc
        · subst hsk
          exact Or.inl ⟨hg, k, e, hrx, hpost⟩
        · exact Or.inr hacc

theorem foldl_keys_sound (dir : List FName) (l : List FName)
    (acc : List (FName × FName × FName)) (hsub : ∀ x ∈ l, x ∈ dir) :
    ∀ s ∈ (l.foldl (resolveStep dir) acc).map Prod.fst,
      (∃ n ∈ dir, globPre n = true ∧ ∃ k e, pairRx n = some (s, k, e) ∧ builtPost s n e ∈ dir) ∨
        s ∈ acc.map Prod.fst := by
  induction l generalizing acc with
  | nil => exact fun s hs => Or.inr hs
  | cons n t ih =>
    intro s hs
    rw [List.foldl_cons] at hs
    rcases ih (resolveStep dir acc n) (fun x hx => hsub x (List.mem_cons_of_mem _ hx)) s hs with
      hfound | hacc
    · exact Or.inl hfound
    · rcases resolveStep_keys_sub dir acc n hacc with hhit | hold
      · exact Or.inl ⟨n, hsub n (List.mem_cons_self _ _), hhit⟩
      · exact Or.inr hold

/-- Counterexample to claim C7: a directory holding a pre file with
extension `tif` and a matching-stem post file with extension `png` —
a pair under extension-insensitive matching — yields an empty mapping,
because the resolver looks for a post file with the pre file's own
suffix. -/
theorem c7_cross_extension_counterexample :
    "a_pre_disaster.tif".data = "a".data ++ tailOf "pre" "tif" ∧
    "a_post_disaster.png".data = "a".data ++ tailOf "post" "png" ∧
    resolvePairs ["a_pre_disaster.tif".data, "a_post_disaster.png".data] = [] := by
  refine ⟨?_, ?_, ?_⟩ <;> decide

/-- Claim C7 as amended: the resolver maps stem `s` whenever the directory
holds both `s_pre_disaster.<e>` and `s_post_disaster.<e>` with the SAME
extension `e ∈ tif/tiff/png` (lowercase names); conversely, every mapped
stem arises from a directory file that contains the `_pre_disaster.` glob
infix, matches the pair regex with that stem, and whose constructed
same-suffix post counterpart exists in the directory — so unrelated files
create no entry and a stem with only a pre or only a post file is never
mapped. -/
theorem c7_resolver_same_extension :
    (∀ (dir : List FName) (s : FName) (e : String), e ∈ (["tif", "tiff", "png"] : List String) →
       (s ++ tailOf "pre" e) ∈ dir → (s ++ tailOf "post" e) ∈ dir →
       s ∈ (resolvePairs dir).map Prod.fst) ∧
    (∀ (dir : List FName) (s : FName), s ∈ (resolvePairs dir).map Prod.fst →
       ∃ n ∈ dir, globPre n = true ∧
         ∃ k e, pairRx n = some (s, k, e) ∧ builtPost s n e ∈ dir) := by
  constructor
  · intro dir s e he hpre hpost
    obtain ⟨l1, l2, hdir⟩ := List.append_of_mem hpre
    have hrx := pairRx_append_pre s e he
    have hg := globPre_append_pre s e he
    have hbp : builtPost s (s ++ tailOf "pre" e) e ∈ dir := by
      rw [builtPost_append_pre s e he]
      exact hpost
    rw [resolvePairs, hdir, List.foldl_append, List.foldl_cons]
    apply foldl_keys_mono
    apply resolveStep_hit _ _ _ hg hrx
    rw [← hdir]
    exact hbp
  · intro dir s h
    rcases foldl_keys_sound dir dir [] (fun x hx => hx) s h with hfound | habs
    · exact hfound
    · exact absurd habs (by simp)

/-- Witness for C7 (amended) at a concrete same-extension pair. -/
theorem c7_resolver_witness :
    ("b".data : FName) ∈
      (resolvePairs ["b_pre_disaster.tif".data, "b_post_disaster.tif".data]).map Prod.fst :=
  c7_resolver_same_extension.1 ["b_pre_disaster.tif".data, "b_post_disaster.tif".data]
    "b".data "tif" (by decide) (by decide) (by decide)
